import Mathlib

/-!
Verification of the XRay-report → callgrind converter
(`usr/xray/tools/conv2kcg.py`).

The Python program is shallowly embedded below.  Python objects that are
mutated through shared references (the `CallTree` nodes reachable both from
a `Frame`'s root and from the parser's `state.callers` dictionary) are
modelled with an explicit arena: every node lives in a heap (a `List Node`)
and is designated by its index, so the aliasing behaviour of the source code
(including cross-frame aliasing through `state.callers`) is preserved.
Python dictionaries are modelled as insertion-ordered association lists with
the update-in-place semantics of `d[k] = v`.  A `KeyError` that the script
does not catch is modelled by `Except.error`: the script has no handler, so
an error value corresponds to the run aborting with a traceback.
-/

/-! ## Character classes of the regular expressions (ASCII fragment) -/

/-- Models `\w` of the source regexes on the ASCII inputs the tool consumes:
a letter, a digit or an underscore. -/
def isWordChar (c : Char) : Bool := c.isAlphanum || c == '_'

/-- Models `\s`: the ASCII whitespace characters recognised by Python `re`. -/
def isSpaceChar (c : Char) : Bool :=
  c == ' ' || c == '\t' || c == '\n' || c == '\r' || c == '\x0b' || c == '\x0c'

/-- Models the character class `[0-9A-F]` of the address field. -/
def isUpperHexDigit (c : Char) : Bool :=
  c.isDigit || c == 'A' || c == 'B' || c == 'C' || c == 'D' || c == 'E' || c == 'F'

/-- Models `[\w\(\)]`, the class of the function-name field. -/
def isWordOrParen (c : Char) : Bool := isWordChar c || c == '(' || c == ')'

/-- Maximal munch for a `+`-quantified character class: the classes adjacent
in the source regexes are disjoint, so Python's greedy backtracking matcher
is equivalent to taking the longest prefix, failing on the empty match. -/
def takeWhile1 (p : Char → Bool) (cs : List Char) : Option (List Char × List Char) :=
  let t := cs.takeWhile p
  if t.isEmpty then none else some (t, cs.drop t.length)

/-- Consumes an exact literal prefix, as a literal does in a regex. -/
def dropLiteral : List Char → List Char → Option (List Char)
  | [], cs => some cs
  | _ :: _, [] => none
  | l :: ls, c :: cs => if c == l then dropLiteral ls cs else none

/-- Python `int` on the all-digit strings produced by the `\d+` groups. -/
def digitsToNat (cs : List Char) : Nat :=
  cs.foldl (fun acc c => acc * 10 + (c.toNat - '0'.toNat)) 0

/-! ## Line classifiers (the four regexes, used with `re.match`) -/

/-- Named groups of `frameCallLineRegex`
(`(?P<address>0x[0-9A-F]+)\s+(?P<cycles>\d+)\s+(?P<percentage>\d+\.\d+)` then
six literal spaces, `(?P<depth>\s*)(?P<name>[\w\(\)]+)\s*` and the rest). -/
structure CallSample where
  address : String
  cycles : String
  percentage : String
  depth : String
  name : String
  annot : String
deriving Repr, DecidableEq

/-- Models `frameCallLineRegex.match(line)`.  `re.match` anchors at the start
of the line only; everything after the optional annotation is consumed by the
trailing `.*`.  All quantified classes are pairwise disjoint from their
right neighbours, so greedy matching is deterministic maximal munch. -/
def frameCallLineMatch (line : String) : Option CallSample :=
  (dropLiteral ['0', 'x'] line.data).bind fun r0 =>
  (takeWhile1 isUpperHexDigit r0).bind fun (hex, r1) =>
  (takeWhile1 isSpaceChar r1).bind fun (_, r2) =>
  (takeWhile1 Char.isDigit r2).bind fun (cyc, r3) =>
  (takeWhile1 isSpaceChar r3).bind fun (_, r4) =>
  (takeWhile1 Char.isDigit r4).bind fun (ip, r5) =>
  (dropLiteral ['.'] r5).bind fun r6 =>
  (takeWhile1 Char.isDigit r6).bind fun (fp, r7) =>
  (dropLiteral [' ', ' ', ' ', ' ', ' ', ' '] r7).bind fun r8 =>
  let dep := r8.takeWhile isSpaceChar
  let r9 := r8.drop dep.length
  (takeWhile1 isWordOrParen r9).bind fun (nm, r10) =>
  let r11 := r10.drop (r10.takeWhile isSpaceChar).length
  some ⟨String.mk ('0' :: 'x' :: hex), String.mk cyc,
        String.mk (ip ++ '.' :: fp), String.mk dep, String.mk nm, String.mk r11⟩

/-- Models `frameStarted`: `frameStartRegex` is `label (?P<label>\w+)`,
matched at the start of the line; returns the label group on success. -/
def frameStarted (line : String) : Option String :=
  (dropLiteral ['l', 'a', 'b', 'e', 'l', ' '] line.data).bind fun r =>
  (takeWhile1 isWordChar r).bind fun (lbl, _) => some (String.mk lbl)

/-- Models `headerStarted`: `headerStartRegex` is `^Frame#.*`. -/
def headerStarted (line : String) : Bool :=
  (dropLiteral ['F', 'r', 'a', 'm', 'e', '#'] line.data).isSome

/-- Named groups of `headerFrameLineRegex`
(`\s+(?P<id>\d+)\s+(?P<ticks>\d+)\s+(?P<size>\d+)\s+(?P<annotations>\d+)\s+(?P<label>\w+)`). -/
structure HeaderFrameLine where
  fid : String
  ticks : String
  size : String
  annots : String
  label : String
deriving Repr, DecidableEq

/-- Models `headerFrameLineRegex.match(line)`. -/
def headerFrameLineMatch (line : String) : Option HeaderFrameLine :=
  (takeWhile1 isSpaceChar line.data).bind fun (_, r1) =>
  (takeWhile1 Char.isDigit r1).bind fun (i, r2) =>
  (takeWhile1 isSpaceChar r2).bind fun (_, r3) =>
  (takeWhile1 Char.isDigit r3).bind fun (t, r4) =>
  (takeWhile1 isSpaceChar r4).bind fun (_, r5) =>
  (takeWhile1 Char.isDigit r5).bind fun (s, r6) =>
  (takeWhile1 isSpaceChar r6).bind fun (_, r7) =>
  (takeWhile1 Char.isDigit r7).bind fun (a, r8) =>
  (takeWhile1 isSpaceChar r8).bind fun (_, r9) =>
  (takeWhile1 isWordChar r9).bind fun (lbl, _) =>
  some ⟨String.mk i, String.mk t, String.mk s, String.mk a, String.mk lbl⟩

/-- Models `'===' in line[0:3]` of `parseReport` (and, with the other
literal, `'XRay:' in line[0:5]`): a slice of the literal's own length
contains the literal exactly when the line starts with it. -/
def strStartsWith (line : String) (pre : List Char) : Bool :=
  (dropLiteral pre line.data).isSome

/-! ## Python dictionaries and list indexing -/

/-- Models `d[k] = v` on a Python `dict`: replaces the value in place if the
key is present (keeping its insertion position) and appends otherwise. -/
def dictSet {α β : Type} [BEq α] : List (α × β) → α → β → List (α × β)
  | [], k, v => [(k, v)]
  | (k0, v0) :: rest, k, v =>
    if k0 == k then (k, v) :: rest else (k0, v0) :: dictSet rest k v

/-- Models `d[k]` / `k in d` lookup on a Python `dict`. -/
def dictGet {α β : Type} [BEq α] : List (α × β) → α → Option β
  | [], _ => none
  | (k0, v0) :: rest, k => if k0 == k then some v0 else dictGet rest k

/-- Safe positional lookup in the node heap. -/
def listGet {α : Type} : List α → Nat → Option α
  | [], _ => none
  | x :: _, 0 => some x
  | _ :: xs, n + 1 => listGet xs n

/-- Positional update in the node heap (identity out of range; in-range use
only, mirroring a mutation of an existing Python object). -/
def listSet {α : Type} : List α → Nat → α → List α
  | [], _, _ => []
  | _ :: xs, 0, v => v :: xs
  | x :: xs, n + 1, v => x :: listSet xs n v

/-! ## Data model: call-tree nodes, frames, parser state -/

/-- One `CallTree` object of the source, as a heap cell: `name`, `addr` and
`ticks` are the constructor arguments, `children` the indices of the nodes
appended by `CallTree.call` (in `self.calls` order). -/
structure Node where
  name : String
  addr : String
  ticks : Nat
  children : List Nat
deriving Repr, DecidableEq

/-- One `Frame` object: label, declared total ticks, capture size, and the
heap index of the synthetic root `CallTree('_root_', '0x0', totalTicks)`
allocated by its constructor. -/
structure Frame where
  name : String
  totalTicks : Nat
  captureSize : Nat
  root : Nat
deriving Repr, DecidableEq

/-- The `ParsingState` of the source, plus the explicit heap of `CallTree`
objects that Python keeps implicit.  `callers` maps a depth to the heap
index of the node most recently created at that depth; it is never cleared. -/
structure ParsingState where
  last_call_depth : Nat
  callers : List (Nat × Nat)
  call_count : List (String × (String × Nat))
  frames : List (String × Frame)
  heap : List Node
deriving Repr, DecidableEq

/-- The fresh `ParsingState()` built in `__main__`. -/
def initState : ParsingState := ⟨0, [], [], [], []⟩

/-- Models `parseHeader`: on a header descriptor line, the arguments
`(label, int(ticks), int(size))` of the `Frame` constructor. -/
def parseHeader (line : String) : Option (String × Nat × Nat) :=
  (headerFrameLineMatch line).bind fun m =>
  some (m.label, digitsToNat m.ticks.data, digitsToNat m.size.data)

/-- Models `parsingState.frames[frame.name] = frame` together with the
allocation done by `Frame.__init__` (the synthetic root node). -/
def registerFrame (state : ParsingState) (label : String)
    (totalTicks captureSize : Nat) : ParsingState :=
  let rootId := state.heap.length
  let rootNode : Node := ⟨"_root_", "0x0", totalTicks, []⟩
  let frame : Frame := ⟨label, totalTicks, captureSize, rootId⟩
  { state with heap := state.heap ++ [rootNode],
               frames := dictSet state.frames label frame }

/-- Models `parseFrame(state, frameName, line)`.  An uncaught `KeyError`
(frame label absent from `state.frames`, or no node recorded at depth − 1)
is returned as `Except.error`, which aborts the surrounding run exactly as
the uncaught exception does in the script. -/
def parseFrame (state : ParsingState) (frameName : String) (line : String) :
    Except String ParsingState :=
  match frameCallLineMatch line with
  | none => Except.ok state
  | some m =>
    let cc :=
      match dictGet state.call_count m.address with
      | none => dictSet state.call_count m.address (m.name, 0 + 1)
      | some p => dictSet state.call_count m.address (p.1, p.2 + 1)
    let state1 := { state with call_count := cc }
    match dictGet state1.frames frameName with
    | none => Except.error ("KeyError: " ++ frameName)
    | some frame =>
      let state2 := { state1 with last_call_depth := m.depth.length }
      let callerId? :=
        if state2.last_call_depth == 0 then some frame.root
        else dictGet state2.callers (state2.last_call_depth - 1)
      match callerId? with
      | none => Except.error ("KeyError: " ++ toString (state2.last_call_depth - 1))
      | some callerId =>
        let newId := state2.heap.length
        let callee : Node := ⟨m.name, m.address, digitsToNat m.cycles.data, []⟩
        let heap1 := state2.heap ++ [callee]
        let heap2 :=
          match listGet heap1 callerId with
          | some c => listSet heap1 callerId { c with children := c.children ++ [newId] }
          | none => heap1
        Except.ok { state2 with heap := heap2,
                                callers := dictSet state2.callers state2.last_call_depth newId }

/-- The state enum of `parseReport`. -/
inductive States where
  | FindFrame
  | ParseFrame
  | FindHeader
  | ParseHeader
deriving Repr, DecidableEq

/-- The line loop of `parseReport`: one step per input line, carrying the
machine state, `current_frame` and the `ParsingState`.  The file is given as
its list of lines (the trailing newline of each Python line is irrelevant to
every classifier, so it is dropped). -/
def parseLines : List String → States → Option String → ParsingState →
    Except String ParsingState
  | [], _, _, ps => Except.ok ps
  | line :: rest, States.FindFrame, _, ps =>
    (match frameStarted line with
     | some lbl => parseLines rest States.ParseFrame (some lbl) ps
     | none => parseLines rest States.FindFrame none ps)
  | line :: rest, States.ParseFrame, cf, ps =>
    if strStartsWith line ['=', '=', '='] then
      parseLines rest States.FindFrame cf ps
    else
      (match parseFrame ps (cf.getD "") line with
       | Except.ok ps1 => parseLines rest States.ParseFrame cf ps1
       | Except.error e => Except.error e)
  | line :: rest, States.FindHeader, cf, ps =>
    if headerStarted line then parseLines rest States.ParseHeader cf ps
    else parseLines rest States.FindHeader cf ps
  | line :: rest, States.ParseHeader, cf, ps =>
    let ps1 :=
      match parseHeader line with
      | some h => registerFrame ps h.1 h.2.1 h.2.2
      | none => ps
    if strStartsWith line ['X', 'R', 'a', 'y', ':'] then
      parseLines rest States.FindFrame cf ps1
    else parseLines rest States.ParseHeader cf ps1

/-! ## Graph writer -/

/-- The in-memory call tree reachable from one frame root, as a value.
The writer walks the heap recursively; in the heap every child index is
strictly larger than its parent's, so `heap.length + 1` fuel always
suffices to materialise the reachable tree. -/
inductive CallTree where
  | node : String → String → Nat → List CallTree → CallTree

/-- Function name of a call-tree node. -/
def CallTree.name : CallTree → String
  | CallTree.node n _ _ _ => n

/-- Address of a call-tree node. -/
def CallTree.addr : CallTree → String
  | CallTree.node _ a _ _ => a

/-- Inclusive tick count of a call-tree node. -/
def CallTree.ticks : CallTree → Nat
  | CallTree.node _ _ t _ => t

/-- Ordered children (the `calls` list) of a call-tree node. -/
def CallTree.calls : CallTree → List CallTree
  | CallTree.node _ _ _ cs => cs

/-- Materialises the tree rooted at heap index `i` (fuel-indexed; out of
fuel or a dangling index yields an empty placeholder, unreachable on heaps
built by the parser). -/
def treeOfId (heap : List Node) : Nat → Nat → CallTree
  | 0, _ => CallTree.node "" "" 0 []
  | fuel + 1, i =>
    match listGet heap i with
    | none => CallTree.node "" "" 0 []
    | some nd => CallTree.node nd.name nd.addr nd.ticks
        (nd.children.map (treeOfId heap fuel))

/-- The self-cost computation of `dumpCallTree`:
`selfCost = callTree.ticks` then `selfCost -= callee.ticks` per callee. -/
def selfCost (t : CallTree) : Int :=
  t.calls.foldl (fun acc c => acc - (c.ticks : Int)) (t.ticks : Int)

/-- The per-callee lines of `dumpCallTree`'s first loop: `cfl=`, `cfn=`,
`calls=1 0` and the cost line, with the synthetic line counter threaded
through (`line = 2` at the first call, `line += 1` per callee). -/
def calleeRecords : Nat → List CallTree → List String
  | _, [] => []
  | line, c :: cs =>
    ["cfl=" ++ c.name ++ "_" ++ c.addr ++ ".c",
     "cfn=" ++ c.name ++ "_" ++ c.addr,
     "calls=1 0",
     toString line ++ " " ++ toString c.ticks]
    ++ calleeRecords (line + 1) cs

mutual

/-- Models `dumpCallTree(f, callTree)`: the lines written for the node's own
block (one list entry per `f.write`, each write ending in one newline),
followed by the recursive dump of each callee. -/
def dumpCallTree : CallTree → List String
  | CallTree.node nm ad tk cs =>
    ["fl=" ++ nm ++ "_" ++ ad ++ ".c",
     "fn=" ++ nm ++ "_" ++ ad,
     "1 " ++ toString (selfCost (CallTree.node nm ad tk cs))]
    ++ calleeRecords 2 cs
    ++ [""]
    ++ dumpForest cs

/-- The second loop of `dumpCallTree`: `for callee in callTree.calls:
dumpCallTree(f, callee)`. -/
def dumpForest : List CallTree → List String
  | [] => []
  | c :: cs => dumpCallTree c ++ dumpForest cs

end

/-- Models `writeCallgrindHeader`. -/
def writeCallgrindHeader (totalTicks : Nat) : List String :=
  ["positions: line", "events: ticks", "summary: " ++ toString totalTicks, ""]

/-- Models `createCallgrindReport`: the full content of one output file,
as its list of written lines. -/
def createCallgrindReport (heap : List Node) (frame : Frame) : List String :=
  writeCallgrindHeader frame.totalTicks
    ++ dumpCallTree (treeOfId heap (heap.length + 1) frame.root)

/-- The output loop at the end of `parseReport`: one
`<report-base-name>_<label>.callgrind` file per registered frame, in the
(insertion-ordered) iteration order of `parsingState.frames.items()`. -/
def outputEntries (reportname : String) (ps : ParsingState) :
    List (String × List String) :=
  ps.frames.map fun p =>
    (reportname ++ "_" ++ p.1 ++ ".callgrind", createCallgrindReport ps.heap p.2)

/-- One whole conversion run on a report with the given base name and lines,
starting from a fresh `ParsingState` as `__main__` does: parse every line,
then write every output file.  An uncaught exception aborts the run. -/
def parseReport (reportname : String) (lines : List String) :
    Except String (List (String × List String)) :=
  match parseLines lines States.FindHeader none initState with
  | Except.ok ps => Except.ok (outputEntries reportname ps)
  | Except.error e => Except.error e

/-- Byte content of an output file: each written line followed by the one
newline its `f.write` ends with. -/
def fileBytes (lines : List String) : String :=
  lines.foldl (fun acc l => acc ++ l ++ "\n") ""

/-! ## Concrete reports used to settle the claims -/

/-- Report with one frame of total ticks 20 and two sibling depth-0 calls
`A` (10 ticks) and `B` (5 ticks): the round-trip input of the spec. -/
def c6lines : List String :=
  ["Frame#",
   " 0 20 100 0 F",
   "XRay: x",
   "label F",
   "0x0000000A 10 50.0      A",
   "0x0000000B 5 25.0      B",
   "==="]

/-- Report whose frame declares total ticks 5 but contains a depth-0 call of
10 ticks: the self cost of the root would be −5. -/
def c1lines : List String :=
  ["Frame#",
   " 0 5 100 0 F",
   "XRay: x",
   "label F",
   "0x0000000A 10 99.9      A",
   "==="]

/-- Report whose header declares frame `A` but whose body carries a
`label B` block with one call-sample line. -/
def c2lines : List String :=
  ["Frame#",
   " 0 5 100 0 A",
   "XRay: x",
   "label B",
   "0x0000000A 10 99.9      A",
   "==="]

/-- Report with a depth-0 sample followed directly by a depth-2 sample
(eight spaces after the six literal ones encode depth 2). -/
def c3lines : List String :=
  ["Frame#",
   " 0 20 100 0 F",
   "XRay: x",
   "label F",
   "0x0000000A 10 50.0      A",
   "0x0000000B 5 25.0        X",
   "==="]

/-- Report with two frames: `F1` records a depth-0 node `A`, then the `F2`
block opens with a depth-1 sample `X`, whose parent is looked up in the
never-cleared `callers` mapping. -/
def c4lines : List String :=
  ["Frame#",
   " 0 20 100 0 F1",
   " 1 30 100 0 F2",
   "XRay: x",
   "label F1",
   "0x0000000A 10 50.0      A",
   "===",
   "label F2",
   "0x0000000B 5 25.0       X",
   "==="]

/-- Report whose header holds two descriptor lines with the same label `F`
(ticks 7 then ticks 9). -/
def c10lines : List String :=
  ["Frame#",
   " 0 7 100 0 F",
   " 1 9 200 0 F",
   "XRay: x"]

/-- Report declaring frame `F` in the header with no `label F` block at all. -/
def c5lines : List String :=
  ["Frame#",
   " 0 20 100 0 F",
   "XRay: x"]

/-- The parser state produced by `c5lines`: one registered frame `F` whose
root node is untouched. -/
def c5ps : ParsingState :=
  ⟨0, [], [], [("F", ⟨"F", 20, 100, 0⟩)], [⟨"_root_", "0x0", 20, []⟩]⟩

/-- A state with one registered frame `F`, used to witness the append
behaviour of `parseFrame`. -/
def c7ps : ParsingState := registerFrame initState "F" 20 100

/-- A depth-0 call-sample line for the `parseFrame` witnesses. -/
def c7line : String := "0x0000000A 7 3.5      A"

/-! ## Invariants of the parser state -/

/-- Structural facts maintained by every parsing step: registered frame
roots are live heap indices, distinct frames own distinct roots, the
`callers` mapping holds live indices that are never frame roots, and the
frame registry has no duplicate keys. -/
structure GoodRoots (ps : ParsingState) : Prop where
  rootsLt : ∀ p ∈ ps.frames, p.2.root < ps.heap.length
  rootInj : ∀ p ∈ ps.frames, ∀ q ∈ ps.frames, p.2.root = q.2.root → p.1 = q.1
  callersLt : ∀ c ∈ ps.callers, c.2 < ps.heap.length
  callersNotRoot : ∀ c ∈ ps.callers, ∀ p ∈ ps.frames, c.2 ≠ p.2.root
  keysNodup : (ps.frames.map Prod.fst).Nodup

/-- The frame `F`, if registered, still owns its pristine synthetic root:
name `_root_`, address `0x0`, ticks equal to the declared total, and no
children. -/
def pristine (ps : ParsingState) (F : String) : Prop :=
  ∀ fr : Frame, dictGet ps.frames F = some fr →
    listGet ps.heap fr.root = some ⟨"_root_", "0x0", fr.totalTicks, []⟩

/-- Number of occurrences of a string in a list. -/
def countEq : List String → String → Nat
  | [], _ => 0
  | x :: xs, a => (if x == a then 1 else 0) + countEq xs a

/-- Parser state reached on `c1lines` (stated explicitly so that the parse
phase and the write phase can be evaluated separately). -/
def psC1 : ParsingState :=
  ⟨0, [(0, 1)], [("0x0000000A", ("A", 1))],
   [("F", ⟨"F", 5, 100, 0⟩)],
   [⟨"_root_", "0x0", 5, [1]⟩, ⟨"A", "0x0000000A", 10, []⟩]⟩

/-- Parser state reached on `c4lines`: node 2 (`A`, created in `F1`'s
block) has gained child 3 (`X`, parsed inside `F2`'s block). -/
def psC4 : ParsingState :=
  ⟨1, [(0, 2), (1, 3)], [("0x0000000A", ("A", 1)), ("0x0000000B", ("X", 1))],
   [("F1", ⟨"F1", 20, 100, 0⟩), ("F2", ⟨"F2", 30, 100, 1⟩)],
   [⟨"_root_", "0x0", 20, [2]⟩, ⟨"_root_", "0x0", 30, []⟩,
    ⟨"A", "0x0000000A", 10, [3]⟩, ⟨"X", "0x0000000B", 5, []⟩]⟩

/-- Parser state reached on `c6lines`. -/
def psC6 : ParsingState :=
  ⟨0, [(0, 2)], [("0x0000000A", ("A", 1)), ("0x0000000B", ("B", 1))],
   [("F", ⟨"F", 20, 100, 0⟩)],
   [⟨"_root_", "0x0", 20, [1, 2]⟩, ⟨"A", "0x0000000A", 10, []⟩,
    ⟨"B", "0x0000000B", 5, []⟩]⟩

/-- Parser state reached on `c10lines`: the registry holds one entry for
`F`, built from the later descriptor (ticks 9, root node 1); the root
allocated for the earlier descriptor (node 0) is orphaned. -/
def psC10 : ParsingState :=
  ⟨0, [], [],
   [("F", ⟨"F", 9, 200, 1⟩)],
   [⟨"_root_", "0x0", 7, []⟩, ⟨"_root_", "0x0", 9, []⟩]⟩

/-! ## Helper lemmas: list indexing, dictionaries, strings -/

/-- Lookup left of an appended tail is lookup in the prefix. -/
theorem listGet_append_lt {α : Type} :
    ∀ (l l2 : List α) (i : Nat), i < l.length → listGet (l ++ l2) i = listGet l i
  | [], _, _, h => absurd h (Nat.not_lt_zero _)
  | _ :: _, _, 0, _ => rfl
  | _ :: xs, l2, i + 1, h =>
    listGet_append_lt xs l2 i (Nat.lt_of_succ_lt_succ h)

/-- Lookup at the old length of a one-element extension finds the new cell. -/
theorem listGet_append_len {α : Type} :
    ∀ (l : List α) (x : α), listGet (l ++ [x]) l.length = some x
  | [], _ => rfl
  | _ :: xs, x => listGet_append_len xs x

/-- Updating in range makes the cell readable. -/
theorem listGet_set_self {α : Type} :
    ∀ (l : List α) (i : Nat) (v : α), i < l.length → listGet (listSet l i v) i = some v
  | [], _, _, h => absurd h (Nat.not_lt_zero _)
  | _ :: _, 0, _, _ => rfl
  | _ :: xs, i + 1, v, h => listGet_set_self xs i v (Nat.lt_of_succ_lt_succ h)

/-- Updating one cell leaves every other cell unchanged. -/
theorem listGet_set_ne {α : Type} :
    ∀ (l : List α) (i j : Nat) (v : α), i ≠ j → listGet (listSet l i v) j = listGet l j
  | [], _, _, _, _ => rfl
  | _ :: _, 0, 0, _, h => absurd rfl h
  | _ :: _, 0, _ + 1, _, _ => rfl
  | _ :: _, _ + 1, 0, _, _ => rfl
  | _ :: xs, i + 1, j + 1, v, h =>
    listGet_set_ne xs i j v (fun he => h (by rw [he]))

/-- `listSet` preserves the length. -/
theorem length_listSet {α : Type} :
    ∀ (l : List α) (i : Nat) (v : α), (listSet l i v).length = l.length
  | [], _, _ => rfl
  | _ :: _, 0, _ => rfl
  | x :: xs, i + 1, v => by simp [listSet, length_listSet xs i v]

/-- Reading back the key just written. -/
theorem dictGet_dictSet_self {α β : Type} [BEq α] [LawfulBEq α] :
    ∀ (m : List (α × β)) (k : α) (v : β), dictGet (dictSet m k v) k = some v
  | [], k, v => by simp [dictSet, dictGet]
  | (k0, v0) :: rest, k, v => by
    by_cases h : k0 == k
    · simp [dictSet, h, dictGet]
    · simp [dictSet, h, dictGet, dictGet_dictSet_self rest k v]

/-- Writing one key does not change the others. -/
theorem dictGet_dictSet_ne {α β : Type} [BEq α] [LawfulBEq α] :
    ∀ (m : List (α × β)) (k k2 : α) (v : β), k2 ≠ k →
      dictGet (dictSet m k v) k2 = dictGet m k2
  | [], k, k2, v, h => by
    simp only [dictSet, dictGet]
    rw [if_neg (fun he => h (eq_of_beq he).symm)]
  | (k0, v0) :: rest, k, k2, v, h => by
    by_cases h0 : k0 == k
    · have hk0 : k0 = k := by simp_all
      subst hk0
      simp only [dictSet, beq_self_eq_true, if_true, dictGet]
      rw [if_neg (fun he => h (eq_of_beq he).symm), if_neg (fun he => h (eq_of_beq he).symm)]
    · simp only [dictSet, h0, Bool.false_eq_true, if_false, dictGet]
      by_cases h2 : k0 == k2
      · simp [h2]
      · simp only [h2, Bool.false_eq_true, if_false]
        exact dictGet_dictSet_ne rest k k2 v h

/-- A successful lookup exhibits a registry entry. -/
theorem dictGet_mem {α β : Type} [BEq α] [LawfulBEq α] :
    ∀ (m : List (α × β)) (k : α) (v : β), dictGet m k = some v → (k, v) ∈ m
  | [], k, v, h => by simp [dictGet] at h
  | (k0, v0) :: rest, k, v, h => by
    by_cases h0 : k0 == k
    · have hk : k0 = k := by simp_all
      simp only [dictGet, h0, if_true] at h
      subst hk
      cases h
      exact List.mem_cons_self _ _
    · simp only [dictGet, h0, Bool.false_eq_true, if_false] at h
      exact List.mem_cons_of_mem _ (dictGet_mem rest k v h)

/-- Every entry after a write is an old entry or the written pair. -/
theorem dictSet_mem {α β : Type} [BEq α] [LawfulBEq α] :
    ∀ (m : List (α × β)) (k : α) (v : β) (q : α × β),
      q ∈ dictSet m k v → q ∈ m ∨ q = (k, v)
  | [], k, v, q, h => by simp [dictSet] at h; exact Or.inr h
  | (k0, v0) :: rest, k, v, q, h => by
    by_cases h0 : k0 == k
    · simp only [dictSet, h0, if_true] at h
      rcases List.mem_cons.mp h with h1 | h1
      · exact Or.inr h1
      · exact Or.inl (List.mem_cons_of_mem _ h1)
    · simp only [dictSet, h0, Bool.false_eq_true, if_false] at h
      rcases List.mem_cons.mp h with h1 | h1
      · exact Or.inl (by simp [h1])
      · rcases dictSet_mem rest k v q h1 with h2 | h2
        · exact Or.inl (List.mem_cons_of_mem _ h2)
        · exact Or.inr h2

/-- Keys after a write are old keys or the written key. -/
theorem dictSet_keys_sub {α β : Type} [BEq α] [LawfulBEq α]
    (m : List (α × β)) (k : α) (v : β) (a : α)
    (h : a ∈ (dictSet m k v).map Prod.fst) : a ∈ m.map Prod.fst ∨ a = k := by
  rcases List.mem_map.mp h with ⟨q, hq, hqa⟩
  rcases dictSet_mem m k v q hq with h1 | h1
  · exact Or.inl (hqa ▸ List.mem_map_of_mem Prod.fst h1)
  · subst h1; exact Or.inr hqa.symm

/-- A `dict` write preserves key distinctness. -/
theorem dictSet_keys_nodup {α β : Type} [BEq α] [LawfulBEq α] :
    ∀ (m : List (α × β)) (k : α) (v : β), (m.map Prod.fst).Nodup →
      ((dictSet m k v).map Prod.fst).Nodup
  | [], k, v, _ => by simp [dictSet]
  | (k0, v0) :: rest, k, v, h => by
    rw [List.map_cons] at h
    rcases List.nodup_cons.mp h with ⟨hk0, hrest⟩
    by_cases h0 : k0 == k
    · have hk : k0 = k := by simp_all
      subst hk
      simp only [dictSet, h0, if_true, List.map_cons]
      exact List.nodup_cons.mpr ⟨hk0, hrest⟩
    · have hne : k0 ≠ k := by simp_all
      simp only [dictSet, h0, Bool.false_eq_true, if_false, List.map_cons]
      refine List.nodup_cons.mpr ⟨?_, dictSet_keys_nodup rest k v hrest⟩
      intro hmem
      rcases dictSet_keys_sub rest k v k0 hmem with h1 | h1
      · exact hk0 h1
      · exact hne h1

/-- Concatenation of strings concatenates their character data. -/
theorem string_data_append (s t : String) : (s ++ t).data = s.data ++ t.data := rfl

/-- Strings with equal character data are equal. -/
theorem string_eq_of_data {a b : String} (h : a.data = b.data) : a = b := by
  cases a; cases b; exact congrArg String.mk h

/-- Left cancellation of list concatenation. -/
theorem list_append_cancel_left {α : Type} :
    ∀ (xs : List α) {ys zs : List α}, xs ++ ys = xs ++ zs → ys = zs
  | [], _, _, h => h
  | x :: xs, ys, zs, h => list_append_cancel_left xs (by injection h)

/-- Right cancellation of list concatenation. -/
theorem list_append_cancel_right {α : Type} (xs ys zs : List α)
    (h : xs ++ zs = ys ++ zs) : xs = ys := by
  have hlen : xs.length = ys.length := by
    have h2 := congrArg List.length h
    simp only [List.length_append] at h2
    omega
  exact (List.append_inj h hlen).1

/-- Output file names are injective in the frame label. -/
theorem fname_inj (rn a b : String)
    (h : rn ++ "_" ++ a ++ ".callgrind" = rn ++ "_" ++ b ++ ".callgrind") : a = b := by
  have hd := congrArg String.data h
  simp only [string_data_append, List.append_assoc] at hd
  have h1 := list_append_cancel_left rn.data hd
  have h2 := list_append_cancel_left ("_" : String).data h1
  have h3 := list_append_cancel_right a.data b.data (".callgrind" : String).data h2
  exact string_eq_of_data h3

/-- A string absent from a list occurs zero times. -/
theorem countEq_eq_zero :
    ∀ (xs : List String) (a : String), a ∉ xs → countEq xs a = 0
  | [], _, _ => rfl
  | x :: xs, a, h => by
    have hne : x ≠ a := fun he => h (he ▸ List.mem_cons_self _ _)
    have hxs : a ∉ xs := fun hm => h (List.mem_cons_of_mem _ hm)
    simp only [countEq, countEq_eq_zero xs a hxs]
    rw [if_neg (by simpa using hne)]

/-- In the file list produced for a duplicate-free registry that contains
the frame `(F, fr)`, the file named after `F` occurs exactly once. -/
theorem countEq_fname (rn F : String) (fr : Frame) :
    ∀ fs : List (String × Frame), (fs.map Prod.fst).Nodup → (F, fr) ∈ fs →
      countEq (fs.map fun p => rn ++ "_" ++ p.1 ++ ".callgrind")
        (rn ++ "_" ++ F ++ ".callgrind") = 1
  | [], _, hmem => by simp at hmem
  | (g, w) :: rest, hnd, hmem => by
    rw [List.map_cons] at hnd
    rcases List.nodup_cons.mp hnd with ⟨hg, hrest⟩
    rcases List.mem_cons.mp hmem with h1 | h1
    · cases h1
      have hzero : countEq (rest.map fun p => rn ++ "_" ++ p.1 ++ ".callgrind")
          (rn ++ "_" ++ F ++ ".callgrind") = 0 := by
        apply countEq_eq_zero
        intro hm
        rcases List.mem_map.mp hm with ⟨q, hq, hqe⟩
        have hq1 : q.1 ∈ rest.map Prod.fst := List.mem_map_of_mem Prod.fst hq
        rw [fname_inj rn q.1 F hqe] at hq1
        exact hg hq1
      simp [countEq, hzero]
    · have hgF : g ≠ F := by
        intro he
        subst he
        exact hg (List.mem_map.mpr ⟨(g, fr), h1, rfl⟩)
      have hne : rn ++ "_" ++ g ++ ".callgrind" ≠ rn ++ "_" ++ F ++ ".callgrind" :=
        fun he => hgF (fname_inj rn g F he)
      simp only [List.map_cons, countEq]
      rw [if_neg (by simpa using hne), countEq_fname rn F fr rest hrest h1]

/-! ## Helper lemmas: the graph writer -/

/-- The recursive child dump concatenates the dumps in `calls` order. -/
theorem dumpForest_eq : ∀ cs : List CallTree, dumpForest cs = (cs.map dumpCallTree).join
  | [] => rfl
  | c :: cs => by simp [dumpForest, dumpForest_eq cs]

/-- The block written for a node, in terms of its projections. -/
theorem dumpCallTree_eq (t : CallTree) :
    dumpCallTree t =
      ["fl=" ++ t.name ++ "_" ++ t.addr ++ ".c",
       "fn=" ++ t.name ++ "_" ++ t.addr,
       "1 " ++ toString (selfCost t)]
      ++ calleeRecords 2 t.calls ++ [""] ++ (t.calls.map dumpCallTree).join := by
  cases t with
  | node nm ad tk cs =>
    simp [dumpCallTree, CallTree.name, CallTree.addr, CallTree.calls, dumpForest_eq]

/-- The running subtraction of `dumpCallTree` equals the initial value minus
the sum of the subtracted ticks. -/
theorem foldl_sub_eq :
    ∀ (cs : List CallTree) (a : Int),
      cs.foldl (fun acc c => acc - (c.ticks : Int)) a =
        a - ((cs.map fun c => (c.ticks : Int)).sum)
  | [], a => by simp
  | c :: cs, a => by
    simp [List.foldl_cons, foldl_sub_eq cs, sub_sub]

/-- Self cost is inclusive ticks minus the sum of the children's ticks. -/
theorem selfCost_eq (t : CallTree) :
    selfCost t = (t.ticks : Int) - ((t.calls.map fun c => (c.ticks : Int)).sum) := by
  unfold selfCost
  exact foldl_sub_eq t.calls _

/-- The per-callee records enumerate the children with consecutive synthetic
line numbers. -/
theorem calleeRecords_eq_enumFrom :
    ∀ (cs : List CallTree) (n : Nat),
      calleeRecords n cs =
        ((List.enumFrom n cs).map fun p =>
          ["cfl=" ++ p.2.name ++ "_" ++ p.2.addr ++ ".c",
           "cfn=" ++ p.2.name ++ "_" ++ p.2.addr,
           "calls=1 0",
           toString p.1 ++ " " ++ toString p.2.ticks]).join
  | [], _ => rfl
  | c :: cs, n => by
    simp [calleeRecords, List.enumFrom, calleeRecords_eq_enumFrom cs (n + 1)]

/-! ## Helper lemmas: behaviour of `parseFrame` -/

/-- A line that does not match the call-sample pattern is skipped. -/
theorem parseFrame_skip (ps : ParsingState) (g line : String)
    (h : frameCallLineMatch line = none) : parseFrame ps g line = Except.ok ps := by
  simp [parseFrame, h]

/-- A matching sample inside a block whose label is not registered raises
the uncaught `KeyError` of `state.frames[frameName]`. -/
theorem parseFrame_keyerror_frames (ps : ParsingState) (g line : String) (m : CallSample)
    (hm : frameCallLineMatch line = some m)
    (hf : dictGet ps.frames g = none) :
    parseFrame ps g line = Except.error ("KeyError: " ++ g) := by
  simp [parseFrame, hm, hf]

/-- A matching sample at positive depth with no node ever recorded at
depth − 1 raises the uncaught `KeyError` of `state.callers[depth - 1]`. -/
theorem parseFrame_keyerror_callers (ps : ParsingState) (g line : String) (m : CallSample)
    (fr : Frame)
    (hm : frameCallLineMatch line = some m)
    (hf : dictGet ps.frames g = some fr)
    (hd : m.depth.length ≠ 0)
    (hc : dictGet ps.callers (m.depth.length - 1) = none) :
    parseFrame ps g line =
      Except.error ("KeyError: " ++ toString (m.depth.length - 1)) := by
  simp [parseFrame, hm, hf, hd, hc]

/-- The successful path of `parseFrame`, fully described: the new node is
appended to the heap, the resolved caller gains it as its last child, and
the depth map records the new node. -/
theorem parseFrame_spec (ps : ParsingState) (g line : String) (m : CallSample)
    (fr : Frame) (cid : Nat)
    (hm : frameCallLineMatch line = some m)
    (hf : dictGet ps.frames g = some fr)
    (hc : (if m.depth.length == 0 then some fr.root
           else dictGet ps.callers (m.depth.length - 1)) = some cid) :
    parseFrame ps g line = Except.ok
      { last_call_depth := m.depth.length,
        callers := dictSet ps.callers m.depth.length ps.heap.length,
        call_count :=
          (match dictGet ps.call_count m.address with
           | none => dictSet ps.call_count m.address (m.name, 0 + 1)
           | some p => dictSet ps.call_count m.address (p.1, p.2 + 1)),
        frames := ps.frames,
        heap :=
          (match listGet (ps.heap ++ [⟨m.name, m.address, digitsToNat m.cycles.data, []⟩]) cid with
           | some c => listSet (ps.heap ++ [⟨m.name, m.address, digitsToNat m.cycles.data, []⟩])
               cid { c with children := c.children ++ [ps.heap.length] }
           | none => ps.heap ++ [⟨m.name, m.address, digitsToNat m.cycles.data, []⟩]) } := by
  simp only [parseFrame, hm, hf, hc]

/-! ## Invariant preservation across the parsing state machine -/

theorem registerFrame_inv (ps : ParsingState) (lbl : String) (t s : Nat) (F : String)
    (hg : GoodRoots ps) (hp : pristine ps F) :
    GoodRoots (registerFrame ps lbl t s) ∧ pristine (registerFrame ps lbl t s) F := by
  have hlen : (registerFrame ps lbl t s).heap.length = ps.heap.length + 1 := by
    simp [registerFrame]
  have hframes : (registerFrame ps lbl t s).frames =
      dictSet ps.frames lbl ⟨lbl, t, s, ps.heap.length⟩ := by
    simp [registerFrame]
  have hheap : (registerFrame ps lbl t s).heap =
      ps.heap ++ [⟨"_root_", "0x0", t, []⟩] := by
    simp [registerFrame]
  have hcallers : (registerFrame ps lbl t s).callers = ps.callers := by
    simp [registerFrame]
  constructor
  · constructor
    · -- rootsLt
      intro p hpmem
      rw [hframes] at hpmem
      rw [hlen]
      rcases dictSet_mem _ _ _ _ hpmem with h1 | h1
      · exact Nat.lt_succ_of_lt (hg.rootsLt p h1)
      · subst h1; exact Nat.lt_succ_self _
    · -- rootInj
      intro p hpmem q hqmem heq
      rw [hframes] at hpmem hqmem
      rcases dictSet_mem _ _ _ _ hpmem with h1 | h1 <;>
        rcases dictSet_mem _ _ _ _ hqmem with h2 | h2
      · exact hg.rootInj p h1 q h2 heq
      · rw [h2] at heq
        exact absurd heq (Nat.ne_of_lt (hg.rootsLt p h1))
      · rw [h1] at heq
        exact absurd heq.symm (Nat.ne_of_lt (hg.rootsLt q h2))
      · rw [h1, h2]
    · -- callersLt
      intro c hcmem
      rw [hcallers] at hcmem
      rw [hlen]
      exact Nat.lt_succ_of_lt (hg.callersLt c hcmem)
    · -- callersNotRoot
      intro c hcmem p hpmem
      rw [hcallers] at hcmem
      rw [hframes] at hpmem
      rcases dictSet_mem _ _ _ _ hpmem with h1 | h1
      · exact hg.callersNotRoot c hcmem p h1
      · subst h1
        exact Nat.ne_of_lt (hg.callersLt c hcmem)
    · -- keysNodup
      rw [hframes]
      exact dictSet_keys_nodup _ _ _ hg.keysNodup
  · -- pristine
    intro fr hfr
    rw [hframes] at hfr
    rw [hheap]
    by_cases hl : lbl = F
    · subst hl
      rw [dictGet_dictSet_self] at hfr
      cases hfr
      exact listGet_append_len ps.heap _
    · rw [dictGet_dictSet_ne _ _ _ _ (fun he => hl he.symm)] at hfr
      have hroot := hg.rootsLt (F, fr) (dictGet_mem _ _ _ hfr)
      rw [listGet_append_lt _ _ _ hroot]
      exact hp fr hfr

theorem listGet_lt_some {α : Type} :
    ∀ (l : List α) (i : Nat), i < l.length → ∃ x, listGet l i = some x
  | [], _, h => absurd h (Nat.not_lt_zero _)
  | x :: _, 0, _ => ⟨x, rfl⟩
  | _ :: xs, i + 1, h => listGet_lt_some xs i (Nat.lt_of_succ_lt_succ h)

theorem parseFrame_inv_core (ps : ParsingState) (F : String) (d cid : Nat)
    (nd c2 : Node) (cc : List (String × (String × Nat)))
    (hg : GoodRoots ps) (hp : pristine ps F)
    (hcid_ne : ∀ fr2 : Frame, dictGet ps.frames F = some fr2 → cid ≠ fr2.root) :
    GoodRoots ⟨d, dictSet ps.callers d ps.heap.length, cc, ps.frames,
               listSet (ps.heap ++ [nd]) cid c2⟩ ∧
    pristine ⟨d, dictSet ps.callers d ps.heap.length, cc, ps.frames,
              listSet (ps.heap ++ [nd]) cid c2⟩ F := by
  have hlen : (listSet (ps.heap ++ [nd]) cid c2).length = ps.heap.length + 1 := by
    rw [length_listSet]
    simp
  constructor
  · constructor
    · intro p hpmem
      simp only [hlen]
      exact Nat.lt_succ_of_lt (hg.rootsLt p hpmem)
    · intro p hpmem q hqmem heq
      exact hg.rootInj p hpmem q hqmem heq
    · intro c hcmem
      simp only [hlen]
      rcases dictSet_mem _ _ _ _ hcmem with h1 | h1
      · exact Nat.lt_succ_of_lt (hg.callersLt c h1)
      · subst h1; exact Nat.lt_succ_self _
    · intro c hcmem p hpmem
      rcases dictSet_mem _ _ _ _ hcmem with h1 | h1
      · exact hg.callersNotRoot c h1 p hpmem
      · subst h1
        exact Nat.ne_of_gt (hg.rootsLt p hpmem)
    · exact hg.keysNodup
  · intro fr2 hfr2
    have hroot := hg.rootsLt (F, fr2) (dictGet_mem _ _ _ hfr2)
    show listGet (listSet (ps.heap ++ [nd]) cid c2) fr2.root = _
    rw [listGet_set_ne _ _ _ _ (hcid_ne fr2 hfr2),
        listGet_append_lt _ _ _ hroot]
    exact hp fr2 hfr2

theorem parseFrame_inv (ps ps2 : ParsingState) (g F line : String)
    (hgF : g ≠ F) (hg : GoodRoots ps) (hp : pristine ps F)
    (hok : parseFrame ps g line = Except.ok ps2) :
    GoodRoots ps2 ∧ pristine ps2 F := by
  cases hm : frameCallLineMatch line with
  | none =>
    rw [parseFrame_skip ps g line hm] at hok
    injection hok with h
    subst h
    exact ⟨hg, hp⟩
  | some m =>
    cases hf : dictGet ps.frames g with
    | none =>
      rw [parseFrame_keyerror_frames ps g line m hm hf] at hok
      simp at hok
    | some fr =>
      by_cases hd : m.depth.length == 0
      · have hc : (if m.depth.length == 0 then some fr.root
            else dictGet ps.callers (m.depth.length - 1)) = some fr.root := by
          rw [if_pos hd]
        have hcid_lt : fr.root < ps.heap.length :=
          hg.rootsLt (g, fr) (dictGet_mem _ _ _ hf)
        have hcid_ne : ∀ fr2 : Frame, dictGet ps.frames F = some fr2 →
            fr.root ≠ fr2.root := by
          intro fr2 hfr2 heq
          exact hgF (hg.rootInj (g, fr) (dictGet_mem _ _ _ hf)
            (F, fr2) (dictGet_mem _ _ _ hfr2) heq)
        rw [parseFrame_spec ps g line m fr fr.root hm hf hc] at hok
        obtain ⟨c, hcget⟩ := listGet_lt_some ps.heap fr.root hcid_lt
        rw [listGet_append_lt _ _ _ hcid_lt, hcget] at hok
        injection hok with h
        subst h
        exact parseFrame_inv_core ps F m.depth.length fr.root _ _ _ hg hp hcid_ne
      · cases hcal : dictGet ps.callers (m.depth.length - 1) with
        | none =>
          rw [parseFrame_keyerror_callers ps g line m fr hm hf
            (by simpa using hd) hcal] at hok
          simp at hok
        | some cid =>
          have hc : (if m.depth.length == 0 then some fr.root
              else dictGet ps.callers (m.depth.length - 1)) = some cid := by
            rw [if_neg hd]
            exact hcal
          have hcmem := dictGet_mem _ _ _ hcal
          have hcid_lt : cid < ps.heap.length := hg.callersLt _ hcmem
          have hcid_ne : ∀ fr2 : Frame, dictGet ps.frames F = some fr2 →
              cid ≠ fr2.root := by
            intro fr2 hfr2
            exact hg.callersNotRoot _ hcmem (F, fr2) (dictGet_mem _ _ _ hfr2)
          rw [parseFrame_spec ps g line m fr cid hm hf hc] at hok
          obtain ⟨c, hcget⟩ := listGet_lt_some ps.heap cid hcid_lt
          rw [listGet_append_lt _ _ _ hcid_lt, hcget] at hok
          injection hok with h
          subst h
          exact parseFrame_inv_core ps F m.depth.length cid _ _ _ hg hp hcid_ne

theorem goodRoots_init : GoodRoots initState := by
  refine ⟨?_, ?_, ?_, ?_, ?_⟩ <;> simp [initState]

theorem pristine_init (F : String) : pristine initState F := by
  intro fr hfr
  simp [initState, dictGet] at hfr

theorem parseLines_inv (F : String) :
    ∀ (ls : List String) (st : States) (cf : Option String) (ps ps2 : ParsingState),
      (∀ l ∈ ls, frameStarted l ≠ some F) →
      (st = States.ParseFrame → cf.getD "" ≠ F) →
      GoodRoots ps → pristine ps F →
      parseLines ls st cf ps = Except.ok ps2 →
      GoodRoots ps2 ∧ pristine ps2 F := by
  intro ls
  induction ls with
  | nil =>
    intro st cf ps ps2 _ _ hg hp hok
    simp only [parseLines] at hok
    injection hok with h
    subst h
    exact ⟨hg, hp⟩
  | cons line rest ih =>
    intro st cf ps ps2 hnl hcf hg hp hok
    have hnl_head : frameStarted line ≠ some F := hnl line (List.mem_cons_self _ _)
    have hnl_rest : ∀ l ∈ rest, frameStarted l ≠ some F :=
      fun l hl => hnl l (List.mem_cons_of_mem _ hl)
    cases st with
    | FindFrame =>
      cases hfs : frameStarted line with
      | some lbl =>
        simp only [parseLines, hfs] at hok
        refine ih States.ParseFrame (some lbl) ps ps2 hnl_rest ?_ hg hp hok
        intro _
        simp only [Option.getD]
        intro he
        exact hnl_head (by rw [hfs, he])
      | none =>
        simp only [parseLines, hfs] at hok
        exact ih States.FindFrame none ps ps2 hnl_rest (fun h => nomatch h) hg hp hok
    | ParseFrame =>
      by_cases hsep : strStartsWith line ['=', '=', '='] = true
      · simp only [parseLines, hsep, if_true] at hok
        exact ih States.FindFrame cf ps ps2 hnl_rest (fun h => nomatch h) hg hp hok
      · simp only [parseLines, hsep, if_false] at hok
        cases hpf : parseFrame ps (cf.getD "") line with
        | ok ps1 =>
          rw [hpf] at hok
          have hinv := parseFrame_inv ps ps1 (cf.getD "") F line (hcf rfl) hg hp hpf
          exact ih States.ParseFrame cf ps1 ps2 hnl_rest hcf hinv.1 hinv.2 hok
        | error e =>
          rw [hpf] at hok
          simp at hok
    | FindHeader =>
      by_cases hhs : headerStarted line = true
      · simp only [parseLines, hhs, if_true] at hok
        exact ih States.ParseHeader cf ps ps2 hnl_rest (fun h => nomatch h) hg hp hok
      · simp only [parseLines, hhs, if_false] at hok
        exact ih States.FindHeader cf ps ps2 hnl_rest (fun h => nomatch h) hg hp hok
    | ParseHeader =>
      cases hph : parseHeader line with
      | some h3 =>
        simp only [parseLines, hph] at hok
        have hinv := registerFrame_inv ps h3.1 h3.2.1 h3.2.2 F hg hp
        by_cases hx : strStartsWith line ['X', 'R', 'a', 'y', ':'] = true
        · rw [if_pos hx] at hok
          exact ih States.FindFrame cf _ ps2 hnl_rest (fun h => nomatch h)
            hinv.1 hinv.2 hok
        · rw [if_neg hx] at hok
          exact ih States.ParseHeader cf _ ps2 hnl_rest (fun h => nomatch h)
            hinv.1 hinv.2 hok
      | none =>
        simp only [parseLines, hph] at hok
        by_cases hx : strStartsWith line ['X', 'R', 'a', 'y', ':'] = true
        · rw [if_pos hx] at hok
          exact ih States.FindFrame cf ps ps2 hnl_rest (fun h => nomatch h) hg hp hok
        · rw [if_neg hx] at hok
          exact ih States.ParseHeader cf ps ps2 hnl_rest (fun h => nomatch h) hg hp hok

/-! ## The claims -/

/-- C1: evaluating the converter at the failing input: a frame declared
with total ticks 5 whose block holds one depth-0 call of 10 ticks makes the
writer emit the raw negative self-cost line `1 -5` for the frame root —
no clamping to zero happens anywhere in `dumpCallTree`. -/
theorem C1_negative_self_cost_emitted :
    parseReport "report" c1lines =
      Except.ok [("report_F.callgrind",
        ["positions: line", "events: ticks", "summary: 5", "",
         "fl=_root__0x0.c", "fn=_root__0x0", "1 -5",
         "cfl=A_0x0000000A.c", "cfn=A_0x0000000A", "calls=1 0", "2 10", "",
         "fl=A_0x0000000A.c", "fn=A_0x0000000A", "1 10", ""])] := by
  have h : parseLines c1lines States.FindHeader none initState = Except.ok psC1 := by rfl
  unfold parseReport
  rw [h]
  rfl

/-- C2 counterexample: a report whose header declares only frame `A` while
the body carries a `label B` block with one matching call-sample line does
not drop the block's samples and continue — the run aborts with the
uncaught `KeyError` raised by `state.frames['B']`. -/
theorem C2_unregistered_label_aborts :
    parseReport "report" c2lines = Except.error ("KeyError: " ++ "B") := by
  rfl

/-- C3: evaluating the parser at the failing input: a depth-0 sample
followed by a depth-2 sample (fresh run, so no node was ever recorded at
depth 1) aborts the whole conversion with an uncaught `KeyError` from
`state.callers[1]` instead of applying any fallback and reaching end of
input. -/
theorem C3_depth_jump_crashes :
    parseReport "report" c3lines = Except.error ("KeyError: " ++ "1") := by
  rfl

/-- C4 counterexample: the depth→node mapping is not reset between frame
blocks: after frame `F1` records `A` at depth 0, the first sample of frame
`F2` (`X`, at depth 1) is parented under `A` — a node created while parsing
the earlier frame — so `X` is emitted inside `F1`'s output file and `F2`'s
file stays root-only. -/
theorem C4_cross_frame_parent_leak :
    parseReport "r" c4lines =
      Except.ok
        [("r_F1.callgrind",
          ["positions: line", "events: ticks", "summary: 20", "",
           "fl=_root__0x0.c", "fn=_root__0x0", "1 10",
           "cfl=A_0x0000000A.c", "cfn=A_0x0000000A", "calls=1 0", "2 10", "",
           "fl=A_0x0000000A.c", "fn=A_0x0000000A", "1 5",
           "cfl=X_0x0000000B.c", "cfn=X_0x0000000B", "calls=1 0", "2 5", "",
           "fl=X_0x0000000B.c", "fn=X_0x0000000B", "1 5", ""]),
         ("r_F2.callgrind",
          ["positions: line", "events: ticks", "summary: 30", "",
           "fl=_root__0x0.c", "fn=_root__0x0", "1 30", ""])] := by
  have h : parseLines c4lines States.FindHeader none initState = Except.ok psC4 := by rfl
  unfold parseReport
  rw [h]
  rfl

/-- C6: converting the minimal synthetic report — one frame of total ticks
20 with two sibling depth-0 calls `A` (10 ticks) and `B` (5 ticks) — yields
a frame-root self cost of 5 (line `1 5`), self cost 10 for `A` and self
cost 5 for `B`. -/
theorem C6_round_trip :
    parseReport "report" c6lines =
      Except.ok [("report_F.callgrind",
        ["positions: line", "events: ticks", "summary: 20", "",
         "fl=_root__0x0.c", "fn=_root__0x0", "1 5",
         "cfl=A_0x0000000A.c", "cfn=A_0x0000000A", "calls=1 0", "2 10",
         "cfl=B_0x0000000B.c", "cfn=B_0x0000000B", "calls=1 0", "3 5", "",
         "fl=A_0x0000000A.c", "fn=A_0x0000000A", "1 10", "",
         "fl=B_0x0000000B.c", "fn=B_0x0000000B", "1 5", ""])] := by
  have h : parseLines c6lines States.FindHeader none initState = Except.ok psC6 := by rfl
  unfold parseReport
  rw [h]
  rfl

/-- C10: a duplicate header label keeps only the later descriptor —
`dictGet` after two writes of the same key returns the second frame — and
converting a report whose header declares `F` twice (ticks 7 then ticks 9)
produces exactly one output file for `F`, with summary 9 and root self cost
9 from the later descriptor. -/
theorem C10_duplicate_label_last_wins :
    (∀ (fs : List (String × Frame)) (lbl : String) (f1 f2 : Frame),
        dictGet (dictSet (dictSet fs lbl f1) lbl f2) lbl = some f2)
    ∧ parseReport "r" c10lines =
        Except.ok [("r_F.callgrind",
          ["positions: line", "events: ticks", "summary: 9", "",
           "fl=_root__0x0.c", "fn=_root__0x0", "1 9", ""])] := by
  constructor
  · intro fs lbl f1 f2
    exact dictGet_dictSet_self _ _ _
  · have h : parseLines c10lines States.FindHeader none initState = Except.ok psC10 := by rfl
    unfold parseReport
    rw [h]
    rfl

/-- C8: the conversion is deterministic: running the converter twice on the
same report, each run parsing from a fresh `ParsingState` (as `parseReport`
does by construction), yields the same outcome, both as the list of
(file name, written lines) pairs and as byte-for-byte file contents. -/
theorem C8_deterministic (reportname : String) (lines : List String) :
    parseReport reportname lines = parseReport reportname lines ∧
    Except.map (List.map fun p => (p.1, fileBytes p.2)) (parseReport reportname lines) =
      Except.map (List.map fun p => (p.1, fileBytes p.2)) (parseReport reportname lines) :=
  ⟨rfl, rfl⟩

/-- Unfolding step of the tree materialisation at positive fuel. -/
theorem treeOfId_succ (heap : List Node) (fuel i : Nat) :
    treeOfId heap (fuel + 1) i =
      match listGet heap i with
      | none => CallTree.node "" "" 0 []
      | some nd => CallTree.node nd.name nd.addr nd.ticks
          (nd.children.map (treeOfId heap fuel)) := rfl

/-- C2 (amended): a `label` block naming a frame absent from the
header-declared registry is fatal as soon as the block carries a matching
call-sample line: `parseFrame` raises the uncaught `KeyError` of
`state.frames[frameName]`, aborting the conversion run. -/
theorem C2_unregistered_label_keyerror
    (ps : ParsingState) (f line : String) (m : CallSample)
    (hm : frameCallLineMatch line = some m)
    (hf : dictGet ps.frames f = none) :
    parseFrame ps f line = Except.error ("KeyError: " ++ f) :=
  parseFrame_keyerror_frames ps f line m hm hf

/-- C2 witness: the hypotheses hold and the run aborts at the sample line
of the undeclared block label `B`. -/
theorem C2_unregistered_label_keyerror_witness :
    frameCallLineMatch "0x0000000A 10 99.9      A" =
      some ⟨"0x0000000A", "10", "99.9", "", "A", ""⟩ ∧
    dictGet initState.frames "B" = none ∧
    parseFrame initState "B" "0x0000000A 10 99.9      A" =
      Except.error ("KeyError: " ++ "B") :=
  ⟨by rfl, by rfl,
   C2_unregistered_label_keyerror initState "B" "0x0000000A 10 99.9      A"
     ⟨"0x0000000A", "10", "99.9", "", "A", ""⟩ (by rfl) (by rfl)⟩

/-- C4 (amended): the `FindFrame → ParseFrame` transition passes the whole
`ParsingState` through unchanged — in particular the depth→last-node
mapping `callers` is never cleared when a new frame block starts, so a
depth d > 0 sample takes as parent the node most recently recorded at
depth d − 1 anywhere earlier in the run, possibly inside an earlier
frame's block. -/
theorem C4_callers_not_reset (line : String) (rest : List String)
    (cf : Option String) (ps : ParsingState) (lbl : String)
    (h : frameStarted line = some lbl) :
    parseLines (line :: rest) States.FindFrame cf ps =
      parseLines rest States.ParseFrame (some lbl) ps := by
  simp only [parseLines, h]

/-- C4 witness: a frame-start line carries a state with a non-empty
`callers` mapping into `ParseFrame` unchanged. -/
theorem C4_callers_not_reset_witness :
    frameStarted "label F" = some "F" ∧
    parseLines ["label F"] States.FindFrame none ⟨0, [(0, 5)], [], [], []⟩ =
      parseLines [] States.ParseFrame (some "F") ⟨0, [(0, 5)], [], [], []⟩ :=
  ⟨by rfl,
   C4_callers_not_reset "label F" [] none ⟨0, [(0, 5)], [], [], []⟩ "F" (by rfl)⟩

/-- C9: the block a node contributes: the defining entity keyed by
`name_address`, its self cost attributed to synthetic line 1 as the first
cost line, then per direct child (in order) the called-entity records keyed
by `name_address`, the fixed `calls=1 0` annotation, and the child's
inclusive ticks on consecutive synthetic lines starting at 2; the children
blocks recurse afterwards in the same order. -/
theorem C9_writer_block_format (t : CallTree) :
    dumpCallTree t =
      ["fl=" ++ t.name ++ "_" ++ t.addr ++ ".c",
       "fn=" ++ t.name ++ "_" ++ t.addr,
       "1 " ++ toString (selfCost t)]
      ++ ((List.enumFrom 2 t.calls).map fun p =>
           ["cfl=" ++ p.2.name ++ "_" ++ p.2.addr ++ ".c",
            "cfn=" ++ p.2.name ++ "_" ++ p.2.addr,
            "calls=1 0",
            toString p.1 ++ " " ++ toString p.2.ticks]).join
      ++ [""] ++ (t.calls.map dumpCallTree).join := by
  rw [dumpCallTree_eq, calleeRecords_eq_enumFrom]

/-- C7: children are emitted exactly in `calls`-list order — both the
called-entity records inside the parent block and the recursive child
blocks — and the parser extends a parent's `calls` list by appending at
the end, so `calls` order is input-arrival order for that parent. -/
theorem C7_child_order :
    (∀ t : CallTree, dumpCallTree t =
        ["fl=" ++ t.name ++ "_" ++ t.addr ++ ".c",
         "fn=" ++ t.name ++ "_" ++ t.addr,
         "1 " ++ toString (selfCost t)]
        ++ calleeRecords 2 t.calls ++ [""] ++ (t.calls.map dumpCallTree).join)
    ∧ (∀ (n : Nat) (c : CallTree) (cs : List CallTree),
        calleeRecords n (c :: cs) =
          ["cfl=" ++ c.name ++ "_" ++ c.addr ++ ".c",
           "cfn=" ++ c.name ++ "_" ++ c.addr,
           "calls=1 0", toString n ++ " " ++ toString c.ticks]
          ++ calleeRecords (n + 1) cs)
    ∧ (∀ (ps : ParsingState) (f line : String) (m : CallSample) (fr : Frame)
         (cid : Nat) (nd : Node),
        frameCallLineMatch line = some m →
        dictGet ps.frames f = some fr →
        (if m.depth.length == 0 then some fr.root
         else dictGet ps.callers (m.depth.length - 1)) = some cid →
        cid < ps.heap.length →
        listGet ps.heap cid = some nd →
        (parseFrame ps f line).isOk = true ∧
        ((parseFrame ps f line).toOption.bind fun ps2 => listGet ps2.heap cid) =
          some { nd with children := nd.children ++ [ps.heap.length] } ∧
        ((parseFrame ps f line).toOption.bind fun ps2 =>
            listGet ps2.heap ps.heap.length) =
          some ⟨m.name, m.address, digitsToNat m.cycles.data, []⟩) := by
  refine ⟨dumpCallTree_eq, fun n c cs => rfl, ?_⟩
  intro ps f line m fr cid nd hm hf hc hlt hget
  rw [parseFrame_spec ps f line m fr cid hm hf hc]
  have hlt2 : cid <
      (ps.heap ++ [(⟨m.name, m.address, digitsToNat m.cycles.data, []⟩ : Node)]).length := by
    simp only [List.length_append, List.length_cons, List.length_nil]
    omega
  refine ⟨rfl, ?_, ?_⟩
  · simp only [listGet_append_lt _ _ _ hlt, hget, Except.toOption, Option.bind]
    exact listGet_set_self _ _ _ hlt2
  · simp only [listGet_append_lt _ _ _ hlt, hget, Except.toOption, Option.bind]
    rw [listGet_set_ne _ _ _ _ (Nat.ne_of_lt hlt)]
    exact listGet_append_len ps.heap _

/-- C7 witness: appending a depth-0 sample `A` under the registered frame
`F` extends the root's children list by the new node's index. -/
theorem C7_child_order_witness :
    frameCallLineMatch c7line = some ⟨"0x0000000A", "7", "3.5", "", "A", ""⟩ ∧
    dictGet c7ps.frames "F" = some ⟨"F", 20, 100, 0⟩ ∧
    listGet c7ps.heap 0 = some ⟨"_root_", "0x0", 20, []⟩ ∧
    ((parseFrame c7ps "F" c7line).toOption.bind fun ps2 => listGet ps2.heap 0) =
      some ⟨"_root_", "0x0", 20, [1]⟩ ∧
    ((parseFrame c7ps "F" c7line).toOption.bind fun ps2 => listGet ps2.heap 1) =
      some ⟨"A", "0x0000000A", 7, []⟩ := by
  have h := C7_child_order.2.2 c7ps "F" c7line
    ⟨"0x0000000A", "7", "3.5", "", "A", ""⟩ ⟨"F", 20, 100, 0⟩ 0
    ⟨"_root_", "0x0", 20, []⟩ (by rfl) (by rfl) (by rfl) (by decide) (by rfl)
  exact ⟨by rfl, by rfl, by rfl, h.2.1, h.2.2⟩

/-- C5: every frame declared in the header of a successfully parsed report
yields exactly one output file named `<base>_<label>.callgrind`; when the
report has no `label` block for that frame, that file consists of the
header and the synthetic root entity alone, with self cost equal to the
declared total ticks. -/
theorem C5_output_per_declared_frame (reportname F : String) (lines : List String)
    (ps : ParsingState) (fr : Frame)
    (hrun : parseLines lines States.FindHeader none initState = Except.ok ps)
    (hF : dictGet ps.frames F = some fr)
    (hnolabel : ∀ l ∈ lines, frameStarted l ≠ some F) :
    parseReport reportname lines = Except.ok (outputEntries reportname ps) ∧
    countEq ((outputEntries reportname ps).map Prod.fst)
      (reportname ++ "_" ++ F ++ ".callgrind") = 1 ∧
    (reportname ++ "_" ++ F ++ ".callgrind",
      ["positions: line", "events: ticks",
       "summary: " ++ toString fr.totalTicks, "",
       "fl=_root__0x0.c", "fn=_root__0x0",
       "1 " ++ toString fr.totalTicks, ""]) ∈ outputEntries reportname ps := by
  obtain ⟨hg, hp⟩ := parseLines_inv F lines States.FindHeader none initState ps
    hnolabel (fun h => nomatch h) goodRoots_init (pristine_init F) hrun
  have hmem : (F, fr) ∈ ps.frames := dictGet_mem _ _ _ hF
  refine ⟨?_, ?_, ?_⟩
  · unfold parseReport
    rw [hrun]
  · have hmap : (outputEntries reportname ps).map Prod.fst =
        ps.frames.map (fun p => reportname ++ "_" ++ p.1 ++ ".callgrind") := by
      simp [outputEntries, List.map_map, Function.comp]
    rw [hmap]
    exact countEq_fname reportname F fr ps.frames hg.keysNodup hmem
  · have hroot := hp fr hF
    have htree : treeOfId ps.heap (ps.heap.length + 1) fr.root =
        CallTree.node "_root_" "0x0" fr.totalTicks [] := by
      rw [treeOfId_succ, hroot]
      rfl
    have hcontent : createCallgrindReport ps.heap fr =
        ["positions: line", "events: ticks",
         "summary: " ++ toString fr.totalTicks, "",
         "fl=_root__0x0.c", "fn=_root__0x0",
         "1 " ++ toString fr.totalTicks, ""] := by
      unfold createCallgrindReport writeCallgrindHeader
      rw [htree]
      rfl
    rw [← hcontent]
    exact List.mem_map.mpr ⟨(F, fr), hmem, rfl⟩

/-- C5 witness: on the report declaring `F` with no `label F` block, the
run succeeds and the single `F` output file is the root-only one. -/
theorem C5_output_per_declared_frame_witness :
    parseLines c5lines States.FindHeader none initState = Except.ok c5ps ∧
    dictGet c5ps.frames "F" = some ⟨"F", 20, 100, 0⟩ ∧
    (parseReport "r" c5lines = Except.ok (outputEntries "r" c5ps) ∧
     countEq ((outputEntries "r" c5ps).map Prod.fst)
       ("r" ++ "_" ++ "F" ++ ".callgrind") = 1 ∧
     ("r" ++ "_" ++ "F" ++ ".callgrind",
       ["positions: line", "events: ticks", "summary: 20", "",
        "fl=_root__0x0.c", "fn=_root__0x0", "1 20", ""])
       ∈ outputEntries "r" c5ps) :=
  ⟨by rfl, by rfl,
   C5_output_per_declared_frame "r" "F" c5lines c5ps ⟨"F", 20, 100, 0⟩
     (by rfl) (by rfl) (by decide)⟩
